import Mathlib

/-!
Shallow embedding of `src/track_github_issues/tracker.py` and
`src/track_github_issues/cli.py` (repository `track-github-issues`).

Strings are modelled by Lean `String`; Python regular-expression searches
(`re.search`) are modelled by explicit left-to-right scans over the
character list of the string, with the greedy character classes of the
concrete patterns realised by `List.takeWhile`.  Network interaction is
modelled by environment functions passed in explicitly: a page-fetch
environment `Nat → Option (List TIssue)` for the Mirror Index pagination
(`none` models a failed or non-200 page request) and an issue-query
environment `IssueRef → Option (Nat × String)` for the reverse pass
(`none` models a request exception, otherwise HTTP status and the
reported issue state).
-/

namespace Tracker

/-- Characters matched by Python's regex class `\s` (ASCII part). -/
def isPySpace (c : Char) : Bool :=
  c = ' ' || c = '\t' || c = '\n' || c = '\x0d' || c = '\x0c' || c = '\x0b'

/-- Characters allowed by the class `[^\s)]` of `_extract_original_issue_url`. -/
def urlCharOk (c : Char) : Bool :=
  !(isPySpace c) && c != ')'

/-- Characters allowed by the class `[^/]` of the URL-parsing patterns. -/
def notSlash (c : Char) : Bool :=
  c != '/'

/-- Python's substring test `needle in hay` on character lists. -/
def listContains (needle : List Char) : List Char → Bool
  | [] => needle.isEmpty
  | c :: cs => needle.isPrefixOf (c :: cs) || listContains needle cs

/-- Python's substring test `needle in hay` on strings. -/
def containsSubstr (hay needle : String) : Bool :=
  listContains needle.data hay.data

/-- Upstream issue object as returned by the GitHub search API
(fields of the dictionaries consumed by `tracker.py`). -/
structure Issue where
  id : Nat
  html_url : String
  title : String
  body : Option String
  state : String
  created_at : String
  updated_at : String
  repository_url : String
deriving DecidableEq

/-- Tracking issue object as returned by the issue-list API
(fields of the dictionaries consumed by `tracker.py`). -/
structure TIssue where
  number : Nat
  state : String
  body : Option String
deriving DecidableEq

/-- Result of `_parse_issue_url`. -/
structure IssueRef where
  owner : String
  repo : String
  issue_number : String
deriving DecidableEq

/-- Character list of the literal `/repos/` of `_get_repo_name_from_url`. -/
def reposLit : List Char := "/repos/".data

/-- One attempt of the pattern `/repos/([^/]+/[^/]+)` at a fixed position
(the greedy `[^/]+` runs are maximal slash-free runs; no backtracking can
help because a shorter run would put a non-slash character where the
pattern requires `/`). -/
def repoMatchAt (cs : List Char) : Option (List Char) :=
  if reposLit.isPrefixOf cs then
    let rest := cs.drop reposLit.length
    let owner := rest.takeWhile notSlash
    if owner.isEmpty then none
    else
      match rest.drop owner.length with
      | [] => none
      | c :: rest2 =>
        if c = '/' then
          let repo := rest2.takeWhile notSlash
          if repo.isEmpty then none else some (owner ++ '/' :: repo)
        else none
  else none

/-- Left-to-right scan of `re.search(r'/repos/([^/]+/[^/]+)', url)`. -/
def repoSearch : List Char → Option (List Char)
  | [] => none
  | c :: cs =>
    match repoMatchAt (c :: cs) with
    | some r => some r
    | none => repoSearch cs

/-- Model of `_get_repo_name_from_url`. -/
def getRepoNameFromUrl (url : String) : String :=
  match repoSearch url.data with
  | some r => String.mk r
  | none => url

/-- Character list of the literal `https://github.com/`. -/
def ghUrlLit : List Char := "https://github.com/".data

/-- Character list of the literal `\*\*Original Issue:\*\* ` of the
back-reference pattern. -/
def origLit : List Char := "**Original Issue:** ".data

/-- Character list of the whole literal part of the back-reference pattern
`\*\*Original Issue:\*\* (https://github\.com/[^\s)]+)`: the marker
followed by the literal head of the captured group. -/
def origMarker : List Char := origLit ++ ghUrlLit

/-- One attempt of the back-reference pattern at a fixed position; the
captured group is `https://github.com/` followed by the maximal nonempty
run of `[^\s)]` characters. -/
def urlMatchAt (cs : List Char) : Option (List Char) :=
  if origMarker.isPrefixOf cs then
    let run := (cs.drop origMarker.length).takeWhile urlCharOk
    if run.isEmpty then none else some (ghUrlLit ++ run)
  else none

/-- Left-to-right scan of the back-reference `re.search`. -/
def urlSearch : List Char → Option (List Char)
  | [] => none
  | c :: cs =>
    match urlMatchAt (c :: cs) with
    | some r => some r
    | none => urlSearch cs

/-- Model of `_extract_original_issue_url` (`if not body: return None`
covers both a missing body and an empty-string body). -/
def extractOriginalIssueUrl (body : Option String) : Option String :=
  match body with
  | none => none
  | some b =>
    if b = "" then none
    else
      match urlSearch b.data with
      | some r => some (String.mk r)
      | none => none

/-- Character list of the literal `github.com/`. -/
def ghDomLit : List Char := "github.com/".data

/-- Character list of the literal `/issues/`. -/
def issuesLit : List Char := "/issues/".data

/-- One attempt of `github\.com/([^/]+)/([^/]+)/issues/(\d+)` at a fixed
position. -/
def issueMatchAt (cs : List Char) : Option IssueRef :=
  if ghDomLit.isPrefixOf cs then
    let r1 := cs.drop ghDomLit.length
    let owner := r1.takeWhile notSlash
    if owner.isEmpty then none
    else
      match r1.drop owner.length with
      | [] => none
      | c :: r2 =>
        if c = '/' then
          let repo := r2.takeWhile notSlash
          if repo.isEmpty then none
          else
            let r3 := r2.drop repo.length
            if issuesLit.isPrefixOf r3 then
              let digits := (r3.drop issuesLit.length).takeWhile Char.isDigit
              if digits.isEmpty then none
              else some ⟨String.mk owner, String.mk repo, String.mk digits⟩
            else none
        else none
  else none

/-- Left-to-right scan of the issue-URL `re.search`. -/
def issueSearch : List Char → Option IssueRef
  | [] => none
  | c :: cs =>
    match issueMatchAt (c :: cs) with
    | some r => some r
    | none => issueSearch cs

/-- Model of `_parse_issue_url`. -/
def parseIssueUrl (url : String) : Option IssueRef :=
  issueSearch url.data

/-- Model of `_is_original_issue_closed`; `query` models the GET of the
original issue: `none` is a request exception, `some (status, state)` a
response with that HTTP status and reported issue state. -/
def isOriginalIssueClosed (query : IssueRef → Option (Nat × String))
    (url : String) : Bool :=
  match parseIssueUrl url with
  | none => false
  | some ref =>
    match query ref with
    | none => false
    | some st => st.1 == 200 && st.2 == "closed"

/-- Literal placeholder used when the original issue has a falsy body. -/
def placeholderBody : String := "No description provided."

/-- Model of `issue.get('body') or 'No description provided.'`
(Python `or` substitutes the placeholder for `None` and for `''`). -/
def effectiveBody : Option String → String
  | none => placeholderBody
  | some s => if s = "" then placeholderBody else s

/-- Header part of the tracking-issue body template of
`create_tracking_issue` (everything before the `---` separator). -/
def trackingHeader (i : Issue) : String :=
  "**Original Issue:** " ++ i.html_url ++ "\n\n**Repository:** " ++
    getRepoNameFromUrl i.repository_url ++ "\n**State:** " ++ i.state ++
    "\n**Created:** " ++ i.created_at ++ "\n**Updated:** " ++ i.updated_at

/-- Body of the tracking issue created by `create_tracking_issue`. -/
def mkIssueBody (i : Issue) : String :=
  trackingHeader i ++ "\n\n---\n\n" ++ effectiveBody i.body

/-- Title of the tracking issue created by `create_tracking_issue`. -/
def mkIssueTitle (i : Issue) : String :=
  "[" ++ getRepoNameFromUrl i.repository_url ++ "] " ++ i.title

/-- One assignment `d[key] = value` of the Python dict comprehension
`{issue['id']: issue for issue in all_issues}`: an existing key keeps its
position and gets the new value, a new key is appended. -/
def dictInsert (m : List Issue) (i : Issue) : List Issue :=
  if m.any (fun j => j.id == i.id) then
    m.map (fun j => if j.id == i.id then i else j)
  else m ++ [i]

/-- Model of `{issue['id']: issue for issue in all_issues}.values()`. -/
def dedupById (l : List Issue) : List Issue :=
  l.foldl dictInsert []

/-- The tracking repository's own API URL used by the self-filter. -/
def currentRepoUrl (owner name : String) : String :=
  "https://api.github.com/repos/" ++ owner ++ "/" ++ name

/-- Deduplication and self-repository filtering of `get_assigned_issues`,
applied to the accumulated per-user search results. -/
def getAssignedIssues (fetched : List Issue) (owner name : String) : List Issue :=
  (dedupById fetched).filter (fun i => i.repository_url != currentRepoUrl owner name)

/-- Pagination loop of `get_existing_tracking_issues`; `fuel` counts the
remaining iterations of `while page <= page_limit` (so the initial fuel is
`page_limit`), and `env page` is the response to the request for that page
(`none`: exception or non-200 status, both of which `break`). -/
def fetchLoop (env : Nat → Option (List TIssue)) (per : Nat) :
    Nat → Nat → List TIssue → List TIssue
  | 0, _, acc => acc
  | fuel + 1, page, acc =>
    match env page with
    | none => acc
    | some issues =>
      if issues.isEmpty then acc
      else if issues.length < per then acc ++ issues
      else fetchLoop env per fuel (page + 1) (acc ++ issues)

/-- Model of `get_existing_tracking_issues` (pages start at 1). -/
def getExistingTrackingIssues (env : Nat → Option (List TIssue))
    (per limit : Nat) : List TIssue :=
  fetchLoop env per limit 1 []

/-- Body-substring scan of the forward pass: some tracking issue's body
(`tracking.get('body', '')`) contains the original URL as a substring. -/
def matchedB (tracking : List TIssue) (i : Issue) : Bool :=
  tracking.any (fun t => containsSubstr (t.body.getD "") i.html_url)

/-- Forward pass of `run`: returns the processed-URL list (every fetched
issue's `html_url`, recorded before any matching) and the list of issues
for which a tracking-issue creation is attempted (those without a body
match). -/
def forwardPass (tracking : List TIssue) : List Issue → List String × List Issue
  | [] => ([], [])
  | i :: rest =>
    (i.html_url :: (forwardPass tracking rest).1,
     if matchedB tracking i then (forwardPass tracking rest).2
     else i :: (forwardPass tracking rest).2)

/-- Reverse pass of `run`: returns the list of original URLs handed to
`_is_original_issue_closed` and the list of tracking-issue numbers that
get closed. -/
def reversePass (query : IssueRef → Option (Nat × String))
    (processed : List String) : List TIssue → List String × List Nat
  | [] => ([], [])
  | t :: rest =>
    if t.state ≠ "open" then reversePass query processed rest
    else
      match extractOriginalIssueUrl t.body with
      | none => reversePass query processed rest
      | some url =>
        if url ∈ processed then reversePass query processed rest
        else if isOriginalIssueClosed query url then
          (url :: (reversePass query processed rest).1,
           t.number :: (reversePass query processed rest).2)
        else (url :: (reversePass query processed rest).1,
          (reversePass query processed rest).2)

/-- The tracking issue that a successful creation for `i` puts into the
tracking repository (its number is irrelevant to body matching). -/
def mirrorOf (i : Issue) : TIssue :=
  ⟨0, "open", some (mkIssueBody i)⟩

/-- Both passes of `run`, sharing the processed-URL set. -/
def runSync (query : IssueRef → Option (Nat × String))
    (assigned : List Issue) (tracking : List TIssue) :
    (List String × List Issue) × (List String × List Nat) :=
  let f := forwardPass tracking assigned
  (f, reversePass query f.1 tracking)

/-- Outcome of `run_tracker` in `cli.py`: either the missing-token abort
(with the process exit status it produces) or the engine being started. -/
inductive CliOutcome where
  | abortNoToken (exitCode : Nat)
  | engineStarted
deriving DecidableEq

/-- Model of `run_tracker`'s token precondition: `if not gh_token:` prints
an error and executes a plain `return`, after which the click command
finishes normally, so the process exits with status 0. -/
def runTracker (ghToken : Option String) : CliOutcome :=
  match ghToken with
  | none => .abortNoToken 0
  | some t => if t = "" then .abortNoToken 0 else .engineStarted

/-- Modelled from the spec (§4.2, amended): whether the pagination stop
condition holds at page `p`: the page request failed, the page is empty,
or the page's hit count is below the configured page size. -/
def pageStops (env : Nat → Option (List TIssue)) (per p : Nat) : Bool :=
  match env p with
  | none => true
  | some l => l.isEmpty || decide (l.length < per)

/-- Items a page contributes to the accumulated result (a failed page
contributes nothing). -/
def pageItems (env : Nat → Option (List TIssue)) (p : Nat) : List TIssue :=
  (env p).getD []

/-- Modelled from the spec (§4.2, amended): declarative pagination result
starting at page `start` with `fuel` pages still allowed: all pages
strictly before the first stopping page are full successful pages and
contribute their items, the first stopping page contributes whatever a
response delivered (nothing on failure, nothing on an empty page, its
items on a short page), and if no page stops, all `fuel` pages
contribute. -/
def specFrom (env : Nat → Option (List TIssue)) (per start fuel : Nat) : List TIssue :=
  match (List.range' start fuel).find? (pageStops env per) with
  | some s => ((List.range' start (s - start)).map (pageItems env)).flatten ++ pageItems env s
  | none => ((List.range' start fuel).map (pageItems env)).flatten

/-- Modelled from the spec (§4.2, amended): the declarative description of
the whole Mirror Index pagination, starting at page 1. -/
def paginateSpec (env : Nat → Option (List TIssue)) (per limit : Nat) : List TIssue :=
  specFrom env per 1 limit

/-- Spec-side notion for C10: the URL contains a `/repos/<owner>/<repo>`
segment, i.e. the literal `/repos/` followed by a nonempty slash-free
owner segment, a slash, and a nonempty slash-free repo segment. -/
def HasRepoSegment (url : String) : Prop :=
  ∃ p a b s, url.data = p ++ (reposLit ++ (a ++ '/' :: (b ++ s))) ∧
    a ≠ [] ∧ b ≠ [] ∧ (∀ c ∈ a, c ≠ '/') ∧ (∀ c ∈ b, c ≠ '/')

/-- Concrete fixture for the C3 counterexample: an upstream issue whose
`html_url` is exactly `https://github.com/`. -/
def c3Issue : Issue :=
  ⟨1, "https://github.com/", "T", some "b", "open", "c", "u", "r"⟩

/-- Concrete fixture for the C3 witness. -/
def c3Good : Issue :=
  ⟨2, "https://github.com/o/r/issues/1", "T", none, "open", "c", "u",
    "https://api.github.com/repos/o/r"⟩

/-- Concrete fixture for the C1 witness: one open tracking issue with a
back-reference to an original that the query reports closed. -/
def w1Track : List TIssue :=
  [⟨7, "open", some "see **Original Issue:** https://github.com/o/r/issues/3 end"⟩]

/-- Concrete fixture for the C1 witness: the original-issue query. -/
def w1Query : IssueRef → Option (Nat × String) :=
  fun ref => if ref = ⟨"o", "r", "3"⟩ then some (200, "closed") else none

/-- Concrete fixture for the C8 witness: one fetched upstream issue. -/
def w8Issue : Issue :=
  ⟨1, "https://github.com/o/r/issues/1", "T", some "B", "open", "c", "u",
    "https://api.github.com/repos/o/r"⟩

/-- Concrete fixture for the C8 witness: a stale open tracking issue whose
original is no longer fetched. -/
def w8Stale : TIssue :=
  ⟨9, "open", some "**Original Issue:** https://github.com/o/r/issues/3 gone"⟩

/-- Concrete fixture for the C8 witness: the tracking repository contents. -/
def w8Track : List TIssue := [mirrorOf w8Issue, w8Stale]

/-- Concrete fixture for the C8 witness: the original-issue query. -/
def w8Query : IssueRef → Option (Nat × String) :=
  fun ref => if ref = ⟨"o", "r", "3"⟩ then some (200, "closed") else none

/-- Concrete fixture for the C6 witness: an issue owned by the tracking
repository itself. -/
def c6Self : Issue :=
  ⟨1, "https://github.com/o/n/issues/1", "T", none, "open", "c", "u",
    currentRepoUrl "o" "n"⟩

/-- Concrete fixture for the C6 witness: an issue from another repository. -/
def c6Other : Issue :=
  ⟨2, "https://github.com/x/y/issues/2", "T2", none, "open", "c", "u",
    "https://api.github.com/repos/x/y"⟩

/-- Concrete fixture for the C6 witness: the accumulated fetch results. -/
def c6Fetched : List Issue := [c6Self, c6Other]

/-- Concrete fixture for the C9 witness: an issue with an empty-string body. -/
def c9Empty : Issue := ⟨3, "u", "t", some "", "open", "c", "u2", "r"⟩

/-- Concrete fixture for the C9 witness: an issue with a nonempty body. -/
def c9Full : Issue := ⟨4, "u", "t", some "hello", "open", "c", "u2", "r"⟩

/-- Concrete fixture for the C2 witness: one fetched upstream issue. -/
def c2Issue : Issue :=
  ⟨6, "https://github.com/o/r/issues/6", "T2w", some "body", "open", "c", "u",
    "https://api.github.com/repos/o/r"⟩

/-- Concrete fixture for the C10 witness: an issue whose repository URL
has no `/repos/<owner>/<repo>` segment. -/
def c10Issue : Issue :=
  ⟨5, "https://github.com/o/r/issues/5", "T10", none, "open", "c", "u", "plainurl"⟩

/-- Concrete fixture for the C5 counterexample: numbered tracking issues. -/
def cTI (n : Nat) : TIssue := ⟨n, "open", none⟩

/-- Concrete fixture for the C5 counterexample: a page holding exactly 100
hits, i.e. a full page for the capped request page size `min 150 100`. -/
def cPage1 : List TIssue := (List.range 100).map cTI

/-- Concrete fixture for the C5 counterexample: page 1 is full with respect
to the request page size, page 2 exists, later pages fail. -/
def cEnv : Nat → Option (List TIssue) :=
  fun p => if p = 1 then some cPage1 else if p = 2 then some [cTI 200] else none

/-! ### Generic helper lemmas about lists and strings -/

lemma isPrefixOf_append (l t : List Char) : l.isPrefixOf (l ++ t) = true := by
  induction l with
  | nil => rw [List.nil_append]; cases t <;> rfl
  | cons c cs ih => simp [List.isPrefixOf, ih]

lemma isPrefixOf_ex {l cs : List Char} (h : l.isPrefixOf cs = true) :
    ∃ t, cs = l ++ t := by
  induction l generalizing cs with
  | nil => exact ⟨cs, rfl⟩
  | cons a as ih =>
    cases cs with
    | nil => simp [List.isPrefixOf] at h
    | cons b bs =>
      simp only [List.isPrefixOf, Bool.and_eq_true, beq_iff_eq] at h
      obtain ⟨rfl, h2⟩ := h
      obtain ⟨t, rfl⟩ := ih h2
      exact ⟨t, rfl⟩

lemma listContains_of_decomp {needle l t : List Char} (h : l = needle ++ t) :
    listContains needle l = true := by
  cases l with
  | nil =>
    have : needle = [] := by
      cases needle with
      | nil => rfl
      | cons c cs => simp at h
    simp [this, listContains]
  | cons c cs =>
    rw [listContains, h, isPrefixOf_append]
    rfl

lemma listContains_infix (needle a b : List Char) :
    listContains needle (a ++ (needle ++ b)) = true := by
  induction a with
  | nil => rw [List.nil_append]; exact listContains_of_decomp rfl
  | cons c cs ih => simp [listContains, ih]

lemma takeWhile_append_all {p : Char → Bool} {l1 : List Char} (l2 : List Char)
    (h : ∀ c ∈ l1, p c = true) :
    (l1 ++ l2).takeWhile p = l1 ++ l2.takeWhile p := by
  induction l1 with
  | nil => simp
  | cons c cs ih =>
    have hc : p c = true := h c (by simp)
    simp [List.takeWhile_cons, hc, ih (fun d hd => h d (by simp [hd]))]

lemma takeWhile_all {p : Char → Bool} {l : List Char} (h : ∀ c ∈ l, p c = true) :
    l.takeWhile p = l := by
  induction l with
  | nil => rfl
  | cons c cs ih =>
    simp [List.takeWhile_cons, h c (by simp), ih (fun d hd => h d (by simp [hd]))]

lemma takeWhile_cons_false {p : Char → Bool} {c : Char} (l : List Char)
    (h : p c = false) : (c :: l).takeWhile p = [] := by
  simp [List.takeWhile_cons, h]

lemma string_mk_data (s : String) : String.mk s.data = s := rfl

lemma string_ne_empty {s : String} (h : s.data ≠ []) : s ≠ "" := by
  intro he
  apply h
  rw [he]

/-! ### C7: missing-token behaviour of the CLI -/

/-- C7 counterexample: with no GitHub token the program does abort before
any engine work, but the abort is a plain `return`, so the process
terminates with exit status 0 — not with a non-zero status as claimed. -/
theorem c7_counterexample :
    runTracker none = CliOutcome.abortNoToken 0 ∧
      ∀ c : Nat, runTracker none = CliOutcome.abortNoToken c → c = 0 := by
  refine ⟨rfl, ?_⟩
  intro c h
  have h' : CliOutcome.abortNoToken 0 = CliOutcome.abortNoToken c := h
  injection h' with h''
  exact h''.symm

/-- C7 (amended): when no GitHub token is provided (or the token is
empty), the program aborts before any engine work begins and the process
terminates with exit status zero. -/
theorem c7_missing_token (tok : Option String)
    (h : tok = none ∨ tok = some "") :
    runTracker tok = CliOutcome.abortNoToken 0 := by
  rcases h with h | h <;> subst h <;> rfl

/-- Witness for C7 (amended) at the concrete input `none`. -/
theorem c7_missing_token_witness :
    runTracker none = CliOutcome.abortNoToken 0 :=
  c7_missing_token none (Or.inl rfl)

/-! ### C9: placeholder body substitution -/

/-- C9: the created tracking-issue body is the template header, the
separator, and the effective body, where the literal placeholder replaces
a missing (`None`) or empty-string original body, and any other original
body is embedded verbatim after the separator. -/
theorem c9_body_placeholder (i : Issue) :
    mkIssueBody i = trackingHeader i ++ "\n\n---\n\n" ++ effectiveBody i.body ∧
      ((i.body = none ∨ i.body = some "") →
        effectiveBody i.body = placeholderBody) ∧
      (∀ s, i.body = some s → s ≠ "" → effectiveBody i.body = s) := by
  refine ⟨rfl, ?_, ?_⟩
  · rintro (h | h) <;> rw [h] <;> simp [effectiveBody]
  · intro s hs hne
    rw [hs]
    simp [effectiveBody, hne]

/-- Witness for C9 at a concrete empty-string body and a concrete
nonempty body. -/
theorem c9_body_placeholder_witness :
    effectiveBody c9Empty.body = placeholderBody ∧
      effectiveBody c9Full.body = "hello" :=
  ⟨(c9_body_placeholder c9Empty).2.1 (Or.inr rfl),
   (c9_body_placeholder c9Full).2.2 "hello" rfl (by decide)⟩

/-! ### C6: no self-tracking -/

/-- C6: every issue in Source Fetcher output has an owning-repository URL
different from the tracking repository's own API URL. -/
theorem c6_no_self_tracking (fetched : List Issue) (owner name : String)
    (i : Issue) (hmem : i ∈ getAssignedIssues fetched owner name) :
    i.repository_url ≠ currentRepoUrl owner name := by
  have h := (List.mem_filter.mp hmem).2
  simpa using h

/-- Witness for C6 at a concrete fetch result containing a self-repository
issue and a foreign issue. -/
theorem c6_no_self_tracking_witness :
    c6Other ∈ getAssignedIssues c6Fetched "o" "n" ∧
      c6Other.repository_url ≠ currentRepoUrl "o" "n" :=
  ⟨by decide, c6_no_self_tracking c6Fetched "o" "n" c6Other (by decide)⟩

/-! ### Forward pass: basic shape lemmas -/

lemma forwardPass_fst (tracking : List TIssue) (l : List Issue) :
    (forwardPass tracking l).1 = l.map (fun i => i.html_url) := by
  induction l with
  | nil => rfl
  | cons i rest ih => simp [forwardPass, ih]

lemma forwardPass_snd (tracking : List TIssue) (l : List Issue) :
    (forwardPass tracking l).2 = l.filter (fun i => !(matchedB tracking i)) := by
  induction l with
  | nil => rfl
  | cons i rest ih =>
    cases hm : matchedB tracking i <;>
      simp [forwardPass, List.filter_cons, hm, ih]

lemma contains_mkIssueBody (i : Issue) :
    containsSubstr (mkIssueBody i) i.html_url = true := by
  unfold containsSubstr mkIssueBody trackingHeader
  simp only [String.data_append, List.append_assoc]
  exact listContains_infix _ _ _

lemma mirror_matched (T M : List TIssue) (i : Issue)
    (hm : mirrorOf i ∈ M) : matchedB (T ++ M) i = true := by
  unfold matchedB
  rw [List.any_append]
  have h2 : M.any (fun t => containsSubstr (t.body.getD "") i.html_url) = true :=
    List.any_eq_true.mpr ⟨mirrorOf i, hm, contains_mkIssueBody i⟩
  rw [h2, Bool.or_true]

/-- C2: forward-pass idempotence.  After a first forward pass over
`assigned` against `tracking` whose attempted creations all succeed, a
second forward pass over the same upstream set, with the Mirror Index now
also containing the created mirrors, finds for every upstream issue some
tracking issue whose body contains its URL as a substring, and therefore
attempts zero additional creations. -/
theorem c2_idempotent (assigned : List Issue) (tracking : List TIssue) :
    (∀ i ∈ assigned,
      matchedB (tracking ++ (forwardPass tracking assigned).2.map mirrorOf) i = true) ∧
      (forwardPass (tracking ++ (forwardPass tracking assigned).2.map mirrorOf)
        assigned).2 = [] := by
  have hall : ∀ i ∈ assigned,
      matchedB (tracking ++ (forwardPass tracking assigned).2.map mirrorOf) i = true := by
    intro i hi
    cases hm : matchedB tracking i with
    | true =>
      unfold matchedB at hm ⊢
      rw [List.any_append, hm]
      rfl
    | false =>
      apply mirror_matched
      apply List.mem_map_of_mem
      rw [forwardPass_snd]
      exact List.mem_filter.mpr ⟨hi, by simp [hm]⟩
  refine ⟨hall, ?_⟩
  rw [forwardPass_snd]
  apply List.filter_eq_nil_iff.mpr
  intro i hi
  simp [hall i hi]

/-- Witness for C2 at a concrete upstream set and an initially empty
Mirror Index. -/
theorem c2_idempotent_witness :
    matchedB ([] ++ (forwardPass [] [c2Issue]).2.map mirrorOf) c2Issue = true ∧
      (forwardPass ([] ++ (forwardPass [] [c2Issue]).2.map mirrorOf)
        [c2Issue]).2 = [] :=
  ⟨(c2_idempotent [c2Issue] []).1 c2Issue (by decide),
   (c2_idempotent [c2Issue] []).2⟩

/-! ### C3: back-reference round trip -/

lemma urlMatchAt_nil : urlMatchAt [] = none := by
  have h : origMarker.isPrefixOf ([] : List Char) = false := by decide
  simp [urlMatchAt, h]

lemma urlSearch_of_match {cs r : List Char} (h : urlMatchAt cs = some r) :
    urlSearch cs = some r := by
  cases cs with
  | nil => rw [urlMatchAt_nil] at h; cases h
  | cons c cs' => simp [urlSearch, h]

/-- C3 counterexample: an upstream issue whose `html_url` is exactly
`https://github.com/` (it begins with that prefix and contains no
whitespace and no closing parenthesis), yet the reverse-pass extractor
returns `none` on the created body rather than the issue's URL, because
the pattern's `[^\s)]+` requires at least one character after the
prefix. -/
theorem c3_roundtrip_counterexample :
    c3Issue.html_url.data = ghUrlLit ++ ([] : List Char) ∧
      (∀ c ∈ c3Issue.html_url.data, urlCharOk c = true) ∧
      extractOriginalIssueUrl (some (mkIssueBody c3Issue)) = none := by
  refine ⟨by decide, by decide, by decide⟩

/-- C3 (amended): for every tracking issue created from an upstream issue
whose `html_url` begins with `https://github.com/`, extends that prefix by
at least one character, and contains no whitespace or closing-parenthesis
character, the reverse-pass extractor applied to the created body returns
exactly the upstream issue's `html_url`. -/
theorem c3_roundtrip (i : Issue) (tail : List Char)
    (hurl : i.html_url.data = ghUrlLit ++ tail) (hne : tail ≠ [])
    (hok : ∀ c ∈ i.html_url.data, urlCharOk c = true) :
    extractOriginalIssueUrl (some (mkIssueBody i)) = some i.html_url := by
  have htail : ∀ c ∈ tail, urlCharOk c = true := fun c hc =>
    hok c (by rw [hurl]; exact List.mem_append_right _ hc)
  have hdata : (mkIssueBody i).data =
      origMarker ++ (tail ++ ('\n' :: ("\n**Repository:** " ++
        getRepoNameFromUrl i.repository_url ++ "\n**State:** " ++ i.state ++
        "\n**Created:** " ++ i.created_at ++ "\n**Updated:** " ++
        i.updated_at ++ "\n\n---\n\n" ++ effectiveBody i.body).data)) := by
    simp only [mkIssueBody, trackingHeader, String.data_append,
      List.append_assoc, hurl, origMarker, origLit, ghUrlLit]
    rfl
  have hmatch : urlMatchAt (mkIssueBody i).data = some (ghUrlLit ++ tail) := by
    rw [hdata]
    unfold urlMatchAt
    rw [isPrefixOf_append, List.drop_left, takeWhile_append_all _ htail,
      takeWhile_cons_false _ (by decide)]
    simp [hne]
  have hbne : mkIssueBody i ≠ "" := by
    apply string_ne_empty
    rw [hdata]
    simp [origMarker, origLit, ghUrlLit]
  have hred : extractOriginalIssueUrl (some (mkIssueBody i)) =
      (if mkIssueBody i = "" then none
       else
         match urlSearch (mkIssueBody i).data with
         | some r => some (String.mk r)
         | none => none) := rfl
  rw [hred, if_neg hbne, urlSearch_of_match hmatch, ← hurl]

/-- Witness for C3 (amended) at a concrete upstream issue. -/
theorem c3_roundtrip_witness :
    extractOriginalIssueUrl (some (mkIssueBody c3Good)) = some c3Good.html_url :=
  c3_roundtrip c3Good ("o/r/issues/1".data) (by decide) (by decide) (by decide)

/-! ### Reverse pass: closing and querying lemmas -/

lemma reversePass_closed_spec (query : IssueRef → Option (Nat × String))
    (processed : List String) :
    ∀ (ts : List TIssue) (n : Nat), n ∈ (reversePass query processed ts).2 →
      ∃ t, t ∈ ts ∧ t.number = n ∧ t.state = "open" ∧
        ∃ url, extractOriginalIssueUrl t.body = some url ∧ url ∉ processed ∧
          isOriginalIssueClosed query url = true := by
  intro ts
  induction ts with
  | nil => intro n h; simp [reversePass] at h
  | cons t rest ih =>
    intro n h
    rw [reversePass] at h
    by_cases hst : t.state ≠ "open"
    · rw [if_pos hst] at h
      obtain ⟨t', h1, h2⟩ := ih n h
      exact ⟨t', List.mem_cons_of_mem _ h1, h2⟩
    · rw [if_neg hst] at h
      push_neg at hst
      cases hex : extractOriginalIssueUrl t.body with
      | none =>
        simp only [hex] at h
        obtain ⟨t', h1, h2⟩ := ih n h
        exact ⟨t', List.mem_cons_of_mem _ h1, h2⟩
      | some url =>
        simp only [hex] at h
        by_cases hp : url ∈ processed
        · rw [if_pos hp] at h
          obtain ⟨t', h1, h2⟩ := ih n h
          exact ⟨t', List.mem_cons_of_mem _ h1, h2⟩
        · rw [if_neg hp] at h
          cases hcl : isOriginalIssueClosed query url with
          | true =>
            rw [if_pos hcl] at h
            rcases List.mem_cons.mp h with h | h
            · exact ⟨t, List.mem_cons_self _ _, h.symm, hst, url, hex, hp, hcl⟩
            · obtain ⟨t', h1, h2⟩ := ih n h
              exact ⟨t', List.mem_cons_of_mem _ h1, h2⟩
          | false =>
            rw [if_neg (by simp [hcl])] at h
            obtain ⟨t', h1, h2⟩ := ih n h
            exact ⟨t', List.mem_cons_of_mem _ h1, h2⟩

lemma reversePass_queried_spec (query : IssueRef → Option (Nat × String))
    (processed : List String) :
    ∀ (ts : List TIssue) (u : String), u ∈ (reversePass query processed ts).1 →
      u ∉ processed ∧
        ∃ t, t ∈ ts ∧ t.state = "open" ∧ extractOriginalIssueUrl t.body = some u := by
  intro ts
  induction ts with
  | nil => intro u h; simp [reversePass] at h
  | cons t rest ih =>
    intro u h
    rw [reversePass] at h
    by_cases hst : t.state ≠ "open"
    · rw [if_pos hst] at h
      obtain ⟨h1, t', h2, h3⟩ := ih u h
      exact ⟨h1, t', List.mem_cons_of_mem _ h2, h3⟩
    · rw [if_neg hst] at h
      push_neg at hst
      cases hex : extractOriginalIssueUrl t.body with
      | none =>
        simp only [hex] at h
        obtain ⟨h1, t', h2, h3⟩ := ih u h
        exact ⟨h1, t', List.mem_cons_of_mem _ h2, h3⟩
      | some url =>
        simp only [hex] at h
        by_cases hp : url ∈ processed
        · rw [if_pos hp] at h
          obtain ⟨h1, t', h2, h3⟩ := ih u h
          exact ⟨h1, t', List.mem_cons_of_mem _ h2, h3⟩
        · rw [if_neg hp] at h
          have hcons : u ∈ url :: (reversePass query processed rest).1 := by
            cases hcl : isOriginalIssueClosed query url with
            | true => rw [if_pos hcl] at h; exact h
            | false => rw [if_neg (by simp [hcl])] at h; exact h
          rcases List.mem_cons.mp hcons with hu | hu
          · subst hu
            exact ⟨hp, t, List.mem_cons_self _ _, hst, hex⟩
          · obtain ⟨h1, t', h2, h3⟩ := ih u hu
            exact ⟨h1, t', List.mem_cons_of_mem _ h2, h3⟩

lemma isOriginalIssueClosed_spec {query : IssueRef → Option (Nat × String)}
    {url : String} (h : isOriginalIssueClosed query url = true) :
    ∃ ref, parseIssueUrl url = some ref ∧
      ∃ resp, query ref = some resp ∧ resp.1 = 200 ∧ resp.2 = "closed" := by
  unfold isOriginalIssueClosed at h
  cases hp : parseIssueUrl url with
  | none => simp [hp] at h
  | some ref =>
    simp only [hp] at h
    cases hq : query ref with
    | none => simp [hq] at h
    | some resp =>
      simp only [hq] at h
      simp only [Bool.and_eq_true, beq_iff_eq] at h
      exact ⟨ref, rfl, resp, hq, h.1, h.2⟩

/-- C1: conservative closing.  Every tracking-issue number closed by the
reverse pass of `run` comes from an open tracking issue whose extracted
original URL is absent from the run's processed set and for which the
direct query of the original issue parsed, succeeded with HTTP status
200, and reported state `closed`; consequently a tracking issue whose URL
fails to parse, whose query fails or returns a non-200 status, or whose
original reports `open`, is never closed. -/
theorem c1_conservative_closing (query : IssueRef → Option (Nat × String))
    (assigned : List Issue) (tracking : List TIssue) (n : Nat)
    (h : n ∈ (runSync query assigned tracking).2.2) :
    ∃ t, t ∈ tracking ∧ t.number = n ∧ t.state = "open" ∧
      ∃ url, extractOriginalIssueUrl t.body = some url ∧
        url ∉ (runSync query assigned tracking).1.1 ∧
        ∃ ref, parseIssueUrl url = some ref ∧
          ∃ resp, query ref = some resp ∧ resp.1 = 200 ∧ resp.2 = "closed" := by
  obtain ⟨t, h1, h2, h3, url, h4, h5, h6⟩ :=
    reversePass_closed_spec query ((forwardPass tracking assigned).1) tracking n h
  exact ⟨t, h1, h2, h3, url, h4, h5, isOriginalIssueClosed_spec h6⟩

/-- Witness for C1 at a concrete run that closes tracking issue 7. -/
theorem c1_conservative_closing_witness :
    7 ∈ (runSync w1Query [] w1Track).2.2 ∧
      ∃ t, t ∈ w1Track ∧ t.number = 7 ∧ t.state = "open" ∧
        ∃ url, extractOriginalIssueUrl t.body = some url ∧
          url ∉ (runSync w1Query [] w1Track).1.1 ∧
          ∃ ref, parseIssueUrl url = some ref ∧
            ∃ resp, w1Query ref = some resp ∧ resp.1 = 200 ∧ resp.2 = "closed" :=
  ⟨by decide, c1_conservative_closing w1Query [] w1Track 7 (by decide)⟩

/-- C8: the processed set after the forward pass is exactly the list of
`html_url`s of all fetched issues (independently of matching or creation
results, which the processed set does not consult), and the reverse pass
neither queries any URL fetched this run nor closes a tracking issue
whose extracted original URL was fetched this run. -/
theorem c8_processed_set (assigned : List Issue) (tracking : List TIssue)
    (query : IssueRef → Option (Nat × String)) :
    (runSync query assigned tracking).1.1 = assigned.map (fun i => i.html_url) ∧
      (∀ url, url ∈ assigned.map (fun i => i.html_url) →
        url ∉ (runSync query assigned tracking).2.1) ∧
      (∀ n, n ∈ (runSync query assigned tracking).2.2 →
        ∃ t, t ∈ tracking ∧ t.number = n ∧
          ∃ u, extractOriginalIssueUrl t.body = some u ∧
            u ∉ assigned.map (fun i => i.html_url)) := by
  have hfst : (runSync query assigned tracking).1.1 =
      assigned.map (fun i => i.html_url) := forwardPass_fst tracking assigned
  refine ⟨hfst, ?_, ?_⟩
  · intro url hin hq
    have hspec := reversePass_queried_spec query
      ((forwardPass tracking assigned).1) tracking url hq
    exact hspec.1 ((forwardPass_fst tracking assigned).symm ▸ hin)
  · intro n hn
    obtain ⟨t, h1, h2, _, u, h4, h5, _⟩ :=
      reversePass_closed_spec query ((forwardPass tracking assigned).1) tracking n hn
    exact ⟨t, h1, h2, u, h4,
      fun hmem => h5 ((forwardPass_fst tracking assigned).symm ▸ hmem)⟩

/-- Witness for C8 at a concrete run with one fetched issue, its mirror,
and a stale mirror that gets closed. -/
theorem c8_processed_set_witness :
    (runSync w8Query [w8Issue] w8Track).1.1 =
        [w8Issue].map (fun i => i.html_url) ∧
      "https://github.com/o/r/issues/1" ∉ (runSync w8Query [w8Issue] w8Track).2.1 ∧
      ∃ t, t ∈ w8Track ∧ t.number = 9 ∧
        ∃ u, extractOriginalIssueUrl t.body = some u ∧
          u ∉ [w8Issue].map (fun i => i.html_url) :=
  ⟨(c8_processed_set [w8Issue] w8Track w8Query).1,
   (c8_processed_set [w8Issue] w8Track w8Query).2.1
     "https://github.com/o/r/issues/1" (by decide),
   (c8_processed_set [w8Issue] w8Track w8Query).2.2 9 (by decide)⟩

/-! ### C4: deduplication by issue ID -/

lemma map_id_dictInsert (m : List Issue) (i : Issue) :
    (dictInsert m i).map (fun j => j.id) =
      if m.any (fun j => j.id == i.id) then m.map (fun j => j.id)
      else m.map (fun j => j.id) ++ [i.id] := by
  unfold dictInsert
  split
  case isTrue h =>
    rw [List.map_map]
    apply List.map_congr_left
    intro j _
    by_cases hj : j.id = i.id
    · simp [Function.comp, hj]
    · simp [Function.comp, hj]
  case isFalse h => simp

lemma nodup_ids_dictInsert {m : List Issue} (i : Issue)
    (h : (m.map (fun j => j.id)).Nodup) :
    ((dictInsert m i).map (fun j => j.id)).Nodup := by
  rw [map_id_dictInsert]
  split
  case isTrue _ => exact h
  case isFalse hany =>
    have hnotin : i.id ∉ m.map (fun j => j.id) := by
      intro hmem
      obtain ⟨j, hj, hje⟩ := List.mem_map.mp hmem
      exact hany (List.any_eq_true.mpr ⟨j, hj, by simp [hje]⟩)
    simp [List.nodup_append, h, hnotin]

lemma filter_replace_eq (i : Issue) :
    ∀ D : List Issue, (D.map (fun j => j.id)).Nodup →
      (D.map (fun j => if j.id == i.id then i else j)).filter
          (fun j => j.id == i.id) =
        if D.any (fun j => j.id == i.id) then [i] else [] := by
  intro D
  induction D with
  | nil => intro _; rfl
  | cons d D' ih =>
    intro hnd
    rw [List.map_cons, List.nodup_cons] at hnd
    cases hd : (d.id == i.id) with
    | true =>
      have hdi : d.id = i.id := by simpa using hd
      have hnone : (D'.map (fun j => if j.id == i.id then i else j)).filter
          (fun j => j.id == i.id) = [] := by
        apply List.filter_eq_nil_iff.mpr
        intro a ha
        obtain ⟨j, hj, hje⟩ := List.mem_map.mp ha
        have hjd : j.id ≠ i.id := by
          intro he
          exact hnd.1 (List.mem_map.mpr ⟨j, hj, by rw [he, hdi]⟩)
        subst hje
        simp [hjd]
      rw [List.map_cons, if_pos hd, List.filter_cons_of_pos (by simp), hnone,
        List.any_cons, hd]
      simp
    | false =>
      have hdi : d.id ≠ i.id := by simpa using hd
      simp only [List.map_cons, List.any_cons, hd, Bool.false_or, if_neg hdi]
      rw [List.filter_cons_of_neg (by simp [hd])]
      exact ih hnd.2

lemma filter_replace_ne (i : Issue) (k : Nat) (hk : k ≠ i.id) :
    ∀ D : List Issue,
      (D.map (fun j => if j.id == i.id then i else j)).filter
          (fun j => j.id == k) =
        D.filter (fun j => j.id == k) := by
  intro D
  induction D with
  | nil => rfl
  | cons d D' ih =>
    by_cases hd : d.id = i.id
    · have h1 : (i.id == k) = false := by
        simp only [beq_eq_false_iff_ne]
        exact fun h => hk h.symm
      rw [List.map_cons, if_pos (by simp [hd]),
        List.filter_cons_of_neg (by simp [h1]),
        List.filter_cons_of_neg (by simp [hd, h1]), ih]
    · rw [List.map_cons, if_neg (by simp [hd])]
      by_cases hdk : d.id = k
      · rw [List.filter_cons_of_pos (by simp [hdk]),
          List.filter_cons_of_pos (by simp [hdk]), ih]
      · rw [List.filter_cons_of_neg (by simp [hdk]),
          List.filter_cons_of_neg (by simp [hdk]), ih]

lemma filter_none_of_not_any {D : List Issue} {k : Nat}
    (h : D.any (fun j => j.id == k) = false) :
    D.filter (fun j => j.id == k) = [] := by
  apply List.filter_eq_nil_iff.mpr
  intro a ha hak
  rw [List.any_eq_false] at h
  exact h a ha hak

lemma length_filter_filter_le {α : Type} (p q : α → Bool) (l : List α) :
    ((l.filter q).filter p).length ≤ (l.filter p).length := by
  induction l with
  | nil => simp
  | cons c l ih =>
    by_cases hq : q c = true
    · by_cases hp : p c = true
      · rw [List.filter_cons_of_pos hq, List.filter_cons_of_pos hp,
          List.filter_cons_of_pos hp]
        exact Nat.succ_le_succ ih
      · rw [List.filter_cons_of_pos hq,
          List.filter_cons_of_neg (by simpa using hp),
          List.filter_cons_of_neg (by simpa using hp)]
        exact ih
    · by_cases hp : p c = true
      · rw [List.filter_cons_of_neg (by simpa using hq),
          List.filter_cons_of_pos hp]
        exact Nat.le_succ_of_le ih
      · rw [List.filter_cons_of_neg (by simpa using hq),
          List.filter_cons_of_neg (by simpa using hp)]
        exact ih

lemma dedupById_main (l : List Issue) :
    ((dedupById l).map (fun i => i.id)).Nodup ∧
      ∀ k : Nat, (dedupById l).filter (fun i => i.id == k) =
        ((l.filter (fun i => i.id == k)).getLast?).toList := by
  induction l using List.reverseRecOn with
  | nil => exact ⟨by simp [dedupById], fun k => by simp [dedupById]⟩
  | append_singleton l i ih =>
    obtain ⟨ihn, ihf⟩ := ih
    have hstep : dedupById (l ++ [i]) = dictInsert (dedupById l) i := by
      unfold dedupById
      rw [List.foldl_append]
      rfl
    constructor
    · rw [hstep]
      exact nodup_ids_dictInsert i ihn
    · intro k
      rw [hstep]
      by_cases hk : i.id = k
      · subst hk
        unfold dictInsert
        split
        next hany =>
          rw [filter_replace_eq i (dedupById l) ihn, if_pos hany]
          rw [List.filter_append, List.filter_cons_of_pos (by simp),
            List.filter_nil, List.getLast?_concat]
          rfl
        next hany =>
          rw [List.filter_append,
            filter_none_of_not_any (Bool.not_eq_true _ ▸ hany),
            List.filter_cons_of_pos (by simp), List.filter_nil,
            List.filter_append, List.filter_cons_of_pos (by simp),
            List.filter_nil, List.getLast?_concat]
          rfl
      · have hik : (i.id == k) = false := by
          simp only [beq_eq_false_iff_ne]
          exact hk
        have hrhs : (l ++ [i]).filter (fun j => j.id == k) =
            l.filter (fun j => j.id == k) := by
          rw [List.filter_append, List.filter_cons_of_neg (by simp [hik]),
            List.filter_nil, List.append_nil]
        unfold dictInsert
        split
        next hany =>
          rw [filter_replace_ne i k (fun h => hk h.symm) (dedupById l), ihf k, hrhs]
        next hany =>
          rw [List.filter_append, List.filter_cons_of_neg (by simp [hik]),
            List.filter_nil, List.append_nil, ihf k, hrhs]

/-- C4: the accumulated search results are deduplicated by issue ID with
last-seen-wins semantics — the output of the Python dict comprehension has
pairwise-distinct IDs and, for every ID, its single entry is the last
accumulated issue carrying that ID — and consequently the forward pass
attempts at most one tracking-issue creation per upstream issue ID. -/
theorem c4_dedup_last_wins (l : List Issue) :
    ((dedupById l).map (fun i => i.id)).Nodup ∧
      (∀ k : Nat, (dedupById l).filter (fun i => i.id == k) =
        ((l.filter (fun i => i.id == k)).getLast?).toList) ∧
      (∀ (tracking : List TIssue) (owner name : String) (k : Nat),
        ((forwardPass tracking (getAssignedIssues l owner name)).2.filter
          (fun i => i.id == k)).length ≤ 1) := by
  obtain ⟨h1, h2⟩ := dedupById_main l
  refine ⟨h1, h2, ?_⟩
  intro tracking owner name k
  rw [forwardPass_snd]
  calc (((getAssignedIssues l owner name).filter
        (fun i => !(matchedB tracking i))).filter (fun i => i.id == k)).length
      ≤ ((getAssignedIssues l owner name).filter (fun i => i.id == k)).length :=
        length_filter_filter_le _ _ _
    _ ≤ ((dedupById l).filter (fun i => i.id == k)).length := by
        unfold getAssignedIssues
        exact length_filter_filter_le _ _ _
    _ ≤ 1 := by
        rw [h2 k]
        cases (l.filter (fun i => i.id == k)).getLast? <;> simp

/-! ### C5: Mirror Index pagination -/

lemma specFrom_zero (env : Nat → Option (List TIssue)) (per start : Nat) :
    specFrom env per start 0 = [] := by
  unfold specFrom
  simp

lemma specFrom_stop (env : Nat → Option (List TIssue)) (per start fuel : Nat)
    (h : pageStops env per start = true) :
    specFrom env per start (fuel + 1) = pageItems env start := by
  unfold specFrom
  rw [List.range'_succ, List.find?_cons_of_pos _ h]
  simp

lemma specFrom_find_some {env : Nat → Option (List TIssue)} {per start fuel s : Nat}
    (h : (List.range' start fuel).find? (pageStops env per) = some s) :
    specFrom env per start fuel =
      ((List.range' start (s - start)).map (pageItems env)).flatten ++
        pageItems env s := by
  unfold specFrom
  rw [h]

lemma specFrom_find_none {env : Nat → Option (List TIssue)} {per start fuel : Nat}
    (h : (List.range' start fuel).find? (pageStops env per) = none) :
    specFrom env per start fuel =
      ((List.range' start fuel).map (pageItems env)).flatten := by
  unfold specFrom
  rw [h]

lemma specFrom_go (env : Nat → Option (List TIssue)) (per start fuel : Nat)
    (h : pageStops env per start = false) :
    specFrom env per start (fuel + 1) =
      pageItems env start ++ specFrom env per (start + 1) fuel := by
  cases hf : (List.range' (start + 1) fuel).find? (pageStops env per) with
  | some s =>
    have hf1 : (List.range' start (fuel + 1)).find? (pageStops env per) = some s := by
      rw [List.range'_succ, List.find?_cons_of_neg _ (by simp [h])]
      exact hf
    have hs : start + 1 ≤ s := by
      have hmem := List.mem_of_find?_eq_some hf
      rw [List.mem_range'] at hmem
      obtain ⟨i, _, hi⟩ := hmem
      omega
    rw [specFrom_find_some hf1, specFrom_find_some hf,
      show s - start = (s - (start + 1)) + 1 from by omega, List.range'_succ]
    simp [List.append_assoc]
  | none =>
    have hf1 : (List.range' start (fuel + 1)).find? (pageStops env per) = none := by
      rw [List.range'_succ, List.find?_cons_of_neg _ (by simp [h])]
      exact hf
    rw [specFrom_find_none hf1, specFrom_find_none hf, List.range'_succ]
    simp

lemma fetchLoop_eq_specFrom (env : Nat → Option (List TIssue)) (per : Nat) :
    ∀ (fuel start : Nat) (acc : List TIssue),
      fetchLoop env per fuel start acc = acc ++ specFrom env per start fuel := by
  intro fuel
  induction fuel with
  | zero => intro start acc; rw [specFrom_zero]; simp [fetchLoop]
  | succ fuel ih =>
    intro start acc
    cases he : env start with
    | none =>
      have hstop : pageStops env per start = true := by simp [pageStops, he]
      rw [specFrom_stop env per start fuel hstop]
      simp [fetchLoop, he, pageItems]
    | some l =>
      cases hl : l.isEmpty with
      | true =>
        have hnil : l = [] := by simpa using hl
        have hstop : pageStops env per start = true := by simp [pageStops, he, hl]
        rw [specFrom_stop env per start fuel hstop]
        simp [fetchLoop, he, hl, pageItems, hnil]
      | false =>
        by_cases hlen : l.length < per
        · have hstop : pageStops env per start = true := by
            simp [pageStops, he, hlen]
          rw [specFrom_stop env per start fuel hstop]
          simp [fetchLoop, he, hl, hlen, pageItems]
        · have hstop : pageStops env per start = false := by
            simp [pageStops, he, hl, hlen]
          rw [specFrom_go env per start fuel hstop]
          rw [fetchLoop]
          simp only [he]
          rw [if_neg (by simp [hl]), if_neg hlen, ih (start + 1) (acc ++ l)]
          simp [pageItems, he, List.append_assoc]

/-- C5 (amended): the Mirror Index pagination consumes pages 1, 2, ... and
stops exactly when one of three conditions first holds — an empty page, a
page whose hit count is below the configured page size `per_page` (which,
when `per_page` exceeds 100, is larger than the capped request page size
`min per_page 100`), or `page_limit` pages consumed — and a failed or
non-200 page request aborts the loop, returning the issues accumulated
from earlier pages. -/
theorem c5_pagination (env : Nat → Option (List TIssue)) (per limit : Nat) :
    getExistingTrackingIssues env per limit = paginateSpec env per limit := by
  unfold getExistingTrackingIssues paginateSpec
  rw [fetchLoop_eq_specFrom env per limit 1 []]
  simp

/-- C5 counterexample: with `per_page = 150` and `page_limit = 2`, page 1
returns 100 hits — a full page for the request page size `min 150 100 =
100`, so none of the claimed stop conditions (empty page, hit count below
the request page size, page limit consumed) holds — yet the loop stops
after page 1 because the code compares against the configured `per_page =
150`, and page 2's issue is never fetched. -/
theorem c5_pagination_counterexample :
    getExistingTrackingIssues cEnv 150 2 = cPage1 ∧
      cEnv 1 = some cPage1 ∧ cPage1.length = 100 ∧
      ¬(cPage1.length < min 150 100) ∧ cPage1 ≠ [] ∧
      cEnv 2 = some [cTI 200] ∧
      cTI 200 ∉ getExistingTrackingIssues cEnv 150 2 := by
  refine ⟨by decide, by decide, by decide, by decide, by decide, by decide, by decide⟩

/-! ### C10: repository-name extraction -/

lemma reposLit_eq : reposLit = ['/', 'r', 'e', 'p', 'o', 's', '/'] := rfl

lemma isPrefixOf_cons_cons (a b : Char) (l1 l2 : List Char) :
    (a :: l1).isPrefixOf (b :: l2) = (a == b && l1.isPrefixOf l2) := rfl

lemma repoMatchAt_head_ne (c : Char) (cs : List Char) (h : c ≠ '/') :
    repoMatchAt (c :: cs) = none := by
  have hpre : reposLit.isPrefixOf (c :: cs) = false := by
    rw [reposLit_eq, isPrefixOf_cons_cons]
    simp [Ne.symm h]
  simp [repoMatchAt, hpre]

lemma repoMatchAt_slash_ne (d : Char) (cs : List Char) (h : d ≠ 'r') :
    repoMatchAt ('/' :: d :: cs) = none := by
  have hpre : reposLit.isPrefixOf ('/' :: d :: cs) = false := by
    rw [reposLit_eq, isPrefixOf_cons_cons, isPrefixOf_cons_cons]
    simp [Ne.symm h]
  simp [repoMatchAt, hpre]

lemma repoSearch_cons_none {c : Char} {cs : List Char}
    (h : repoMatchAt (c :: cs) = none) :
    repoSearch (c :: cs) = repoSearch cs := by
  simp [repoSearch, h]

lemma repoSearch_cons_some {c : Char} {cs r : List Char}
    (h : repoMatchAt (c :: cs) = some r) :
    repoSearch (c :: cs) = some r := by
  simp [repoSearch, h]

lemma repoSearch_step (c : Char) (cs : List Char) (h : c ≠ '/') :
    repoSearch (c :: cs) = repoSearch cs :=
  repoSearch_cons_none (repoMatchAt_head_ne c cs h)

lemma repoSearch_step2 (d : Char) (cs : List Char) (h : d ≠ 'r') :
    repoSearch ('/' :: d :: cs) = repoSearch (d :: cs) :=
  repoSearch_cons_none (repoMatchAt_slash_ne d cs h)

lemma drop_takeWhile_length (p : Char → Bool) :
    ∀ l : List Char, l.drop (l.takeWhile p).length = l.dropWhile p := by
  intro l
  induction l with
  | nil => rfl
  | cons c cs ih =>
    cases hc : p c with
    | true => simp [List.takeWhile_cons, List.dropWhile_cons, hc, ih]
    | false => simp [List.takeWhile_cons, List.dropWhile_cons, hc]

lemma repoMatchAt_found (a b : List Char) (ha : a ≠ []) (hb : b ≠ [])
    (hsa : ∀ c ∈ a, notSlash c = true) (hsb : ∀ c ∈ b, notSlash c = true) :
    repoMatchAt ('/' :: 'r' :: 'e' :: 'p' :: 'o' :: 's' :: '/' :: (a ++ '/' :: b)) =
      some (a ++ '/' :: b) := by
  show repoMatchAt (reposLit ++ (a ++ '/' :: b)) = some (a ++ '/' :: b)
  have howner : (a ++ '/' :: b).takeWhile notSlash = a := by
    rw [takeWhile_append_all _ hsa, takeWhile_cons_false _ (by simp [notSlash]),
      List.append_nil]
  have hrepo : b.takeWhile notSlash = b := takeWhile_all hsb
  unfold repoMatchAt
  simp only [isPrefixOf_append, if_true, List.drop_left, howner, hrepo]
  simp [List.isEmpty_iff, ha, hb]

lemma repoMatchAt_some_decomp {cs r : List Char} (h : repoMatchAt cs = some r) :
    ∃ a b s, cs = reposLit ++ (a ++ '/' :: (b ++ s)) ∧ a ≠ [] ∧ b ≠ [] ∧
      (∀ c ∈ a, c ≠ '/') ∧ (∀ c ∈ b, c ≠ '/') := by
  unfold repoMatchAt at h
  split at h
  case isFalse => cases h
  case isTrue hpre =>
    obtain ⟨rest, hcs⟩ := isPrefixOf_ex hpre
    subst hcs
    replace h : (if (rest.takeWhile notSlash).isEmpty then none
        else
          match rest.drop (rest.takeWhile notSlash).length with
          | [] => none
          | c :: rest2 =>
            if c = '/' then
              if (rest2.takeWhile notSlash).isEmpty then none
              else some (rest.takeWhile notSlash ++ '/' :: rest2.takeWhile notSlash)
            else none) = some r := h
    split at h
    case isTrue => cases h
    case isFalse hne =>
      rw [drop_takeWhile_length] at h
      have hsplit : rest.takeWhile notSlash ++ rest.dropWhile notSlash = rest :=
        List.takeWhile_append_dropWhile notSlash rest
      cases hdw : rest.dropWhile notSlash with
      | nil => simp [hdw] at h
      | cons c rest2 =>
        simp only [hdw] at h
        split at h
        case isFalse => cases h
        case isTrue hc =>
          subst hc
          split at h
          case isTrue => cases h
          case isFalse hre =>
            refine ⟨rest.takeWhile notSlash, rest2.takeWhile notSlash,
              rest2.dropWhile notSlash, ?_, ?_, ?_, ?_, ?_⟩
            · have hre2 : rest = rest.takeWhile notSlash ++ '/' ::
                  (rest2.takeWhile notSlash ++ rest2.dropWhile notSlash) := by
                rw [List.takeWhile_append_dropWhile, ← hdw,
                  List.takeWhile_append_dropWhile]
              rw [← hre2]
            · intro h0; rw [h0] at hne; exact hne rfl
            · intro h0; rw [h0] at hre; exact hre rfl
            · intro x hx
              have := List.mem_takeWhile_imp hx
              simpa [notSlash, bne_iff_ne] using this
            · intro x hx
              have := List.mem_takeWhile_imp hx
              simpa [notSlash, bne_iff_ne] using this

lemma repoSearch_some_decomp : ∀ (cs r : List Char), repoSearch cs = some r →
    ∃ p a b s, cs = p ++ (reposLit ++ (a ++ '/' :: (b ++ s))) ∧ a ≠ [] ∧ b ≠ [] ∧
      (∀ c ∈ a, c ≠ '/') ∧ (∀ c ∈ b, c ≠ '/') := by
  intro cs
  induction cs with
  | nil => intro r h; simp [repoSearch] at h
  | cons c cs' ih =>
    intro r h
    cases hm : repoMatchAt (c :: cs') with
    | some r' =>
      obtain ⟨a, b, s, hdec, ha, hb, hsa, hsb⟩ := repoMatchAt_some_decomp hm
      exact ⟨[], a, b, s, by rw [List.nil_append]; exact hdec, ha, hb, hsa, hsb⟩
    | none =>
      rw [repoSearch_cons_none hm] at h
      obtain ⟨p, a, b, s, hdec, ha, hb, hsa, hsb⟩ := ih r h
      exact ⟨c :: p, a, b, s, by rw [List.cons_append, hdec], ha, hb, hsa, hsb⟩

lemma data_ne_nil {s : String} (h : s ≠ "") : s.data ≠ [] :=
  fun hd => h (String.ext (by rw [hd]))

/-- C10: when the repository API URL contains no `/repos/<owner>/<repo>`
segment, `_get_repo_name_from_url` returns the URL unchanged and the
created tracking issue's title is `[<full URL>] <original title>`; for a
canonical repository API URL `https://api.github.com/repos/<owner>/<repo>`
with nonempty slash-free owner and repo segments, the extractor returns
exactly `<owner>/<repo>`. -/
theorem c10_repo_name :
    (∀ url : String, ¬ HasRepoSegment url →
      getRepoNameFromUrl url = url ∧
        ∀ i : Issue, i.repository_url = url →
          mkIssueTitle i = "[" ++ url ++ "] " ++ i.title) ∧
      (∀ a b : String, a ≠ "" → b ≠ "" → (∀ c ∈ a.data, c ≠ '/') →
        (∀ c ∈ b.data, c ≠ '/') →
        getRepoNameFromUrl ("https://api.github.com/repos/" ++ a ++ "/" ++ b) =
          a ++ "/" ++ b) := by
  constructor
  · intro url hno
    have hsearch : repoSearch url.data = none := by
      cases hs : repoSearch url.data with
      | none => rfl
      | some r =>
        obtain ⟨p, a, b, s, hdec, ha, hb, hsa, hsb⟩ :=
          repoSearch_some_decomp url.data r hs
        exact absurd ⟨p, a, b, s, hdec, ha, hb, hsa, hsb⟩ hno
    have hname : getRepoNameFromUrl url = url := by
      unfold getRepoNameFromUrl
      rw [hsearch]
    refine ⟨hname, ?_⟩
    intro i hrep
    unfold mkIssueTitle
    rw [hrep, hname]
  · intro a b ha hb hsa hsb
    have hsa' : ∀ c ∈ a.data, notSlash c = true := fun c hc => by
      simp only [notSlash, bne_iff_ne]
      exact hsa c hc
    have hsb' : ∀ c ∈ b.data, notSlash c = true := fun c hc => by
      simp only [notSlash, bne_iff_ne]
      exact hsb c hc
    have hd : ("https://api.github.com/repos/" ++ a ++ "/" ++ b).data =
        'h' :: 't' :: 't' :: 'p' :: 's' :: ':' :: '/' :: '/' :: 'a' :: 'p' ::
        'i' :: '.' :: 'g' :: 'i' :: 't' :: 'h' :: 'u' :: 'b' :: '.' :: 'c' ::
        'o' :: 'm' :: '/' :: 'r' :: 'e' :: 'p' :: 'o' :: 's' :: '/' ::
        (a.data ++ '/' :: b.data) := by
      simp only [String.data_append, List.append_assoc]
      rfl
    have hsearch : repoSearch
        ("https://api.github.com/repos/" ++ a ++ "/" ++ b).data =
        some (a.data ++ '/' :: b.data) := by
      rw [hd, repoSearch_step 'h' _ (by decide), repoSearch_step 't' _ (by decide),
        repoSearch_step 't' _ (by decide), repoSearch_step 'p' _ (by decide),
        repoSearch_step 's' _ (by decide), repoSearch_step ':' _ (by decide),
        repoSearch_step2 '/' _ (by decide), repoSearch_step2 'a' _ (by decide),
        repoSearch_step 'a' _ (by decide), repoSearch_step 'p' _ (by decide),
        repoSearch_step 'i' _ (by decide), repoSearch_step '.' _ (by decide),
        repoSearch_step 'g' _ (by decide), repoSearch_step 'i' _ (by decide),
        repoSearch_step 't' _ (by decide), repoSearch_step 'h' _ (by decide),
        repoSearch_step 'u' _ (by decide), repoSearch_step 'b' _ (by decide),
        repoSearch_step '.' _ (by decide), repoSearch_step 'c' _ (by decide),
        repoSearch_step 'o' _ (by decide), repoSearch_step 'm' _ (by decide)]
      exact repoSearch_cons_some
        (repoMatchAt_found a.data b.data (data_ne_nil ha) (data_ne_nil hb) hsa' hsb')
    unfold getRepoNameFromUrl
    rw [hsearch]
    apply String.ext
    simp only [String.data_append, List.append_assoc]
    rfl

/-- Witness for C10 at a concrete segment-free URL and a concrete
canonical repository API URL. -/
theorem c10_repo_name_witness :
    (getRepoNameFromUrl "plainurl" = "plainurl" ∧
      mkIssueTitle c10Issue = "[" ++ "plainurl" ++ "] " ++ c10Issue.title) ∧
      getRepoNameFromUrl ("https://api.github.com/repos/" ++ "o" ++ "/" ++ "r") =
        "o" ++ "/" ++ "r" := by
  have hno : ¬ HasRepoSegment "plainurl" := by
    rintro ⟨p, a, b, s, hdec, hba, hbb, _, _⟩
    have hlen := congrArg List.length hdec
    simp only [reposLit_eq, List.length_append, List.length_cons,
      List.length_nil] at hlen
    have ha1 : 0 < a.length := List.length_pos.mpr hba
    have hb1 : 0 < b.length := List.length_pos.mpr hbb
    omega
  exact ⟨⟨(c10_repo_name.1 "plainurl" hno).1,
    (c10_repo_name.1 "plainurl" hno).2 c10Issue rfl⟩,
    c10_repo_name.2 "o" "r" (by decide) (by decide) (by decide) (by decide)⟩

end Tracker
